import Mathlib

/-!
Verification development for the Gibsey Memory-RAG retrieval subsystem.

The Python sources are shallowly embedded:

* `memory_rag/indexer.py` — the FAISS-backed `VectorIndex`.  Machine floats
  are idealized as real numbers, `faiss.normalize_L2` as division by the
  Euclidean norm.  The Python object keeps a flat FAISS index (slot-ordered
  vectors), `id_map : slot → page_id`, `reverse_map : page_id → slot` and
  `next_id`; in every reachable state the three maps are determined by the
  slot-ordered list of `(page_id, vector)` pairs, which is the state type
  used here (`IndexState`).  `faiss.IndexFlatIP.search` is exact
  inner-product top-k with descending scores and deterministic
  ascending-id tie-breaking.
* `memory_rag/main.py` — the HTTP layer (`/refresh` validation via
  pydantic, `embed_text`, `_bootstrap_index`).
* `memory_rag/embed_client.py`, `scripts/kafka_embedding_consumer.py` —
  embedding clients and the CDC consumer loop.
* `memory_rag/slice_logic.py` — passage extraction (pure string logic,
  embedded computably over `ℚ`).
* `memory_rag/reranker.py` — the cross-encoder reranker.
-/

/-- Vector dimension (indexer.py line 16): matches nomic-embed-text. -/
abbrev DIM : ℕ := 768

/-- A dense vector, float32 components idealized as reals. -/
abbrev Vec : Type := Fin DIM → ℝ

/-- Inner product, as computed by `faiss.IndexFlatIP`. -/
noncomputable def dot (u v : Vec) : ℝ := ∑ i, u i * v i

/-- `faiss.normalize_L2`: divide by the Euclidean norm. -/
noncomputable def normalize_L2 (v : Vec) : Vec := fun i => v i / Real.sqrt (dot v v)

/-- Standard basis vector (used only to build concrete inputs). -/
def eVec (j : Fin DIM) : Vec := fun i => if i = j then 1 else 0

lemma dot_self_nonneg (v : Vec) : 0 ≤ dot v v :=
  Finset.sum_nonneg fun i _ => mul_self_nonneg (v i)

lemma dot_normalize_self (v : Vec) (h : dot v v ≠ 0) :
    dot (normalize_L2 v) (normalize_L2 v) = 1 := by
  have hnn : 0 ≤ dot v v := dot_self_nonneg v
  have hsq : Real.sqrt (dot v v) * Real.sqrt (dot v v) = dot v v :=
    Real.mul_self_sqrt hnn
  unfold dot normalize_L2
  have : ∀ i : Fin DIM,
      v i / Real.sqrt (dot v v) * (v i / Real.sqrt (dot v v)) =
        v i * v i / (Real.sqrt (dot v v) * Real.sqrt (dot v v)) := by
    intro i; ring
  rw [Finset.sum_congr rfl fun i _ => this i]
  rw [hsq, ← Finset.sum_div]
  exact div_self h

lemma dot_eVec_self (j : Fin DIM) : dot (eVec j) (eVec j) = 1 := by
  unfold dot eVec
  rw [Finset.sum_eq_single j]
  · simp
  · intro i _ hij; simp [hij]
  · intro h; exact absurd (Finset.mem_univ j) h

lemma normalize_L2_eVec (j : Fin DIM) : normalize_L2 (eVec j) = eVec j := by
  funext i
  unfold normalize_L2
  rw [dot_eVec_self, Real.sqrt_one, div_one]

/-- The vector-index state: the slot-ordered contents of the flat FAISS
index together with the page id of each slot (slot `i` = list position
`i`).  `id_map`, `reverse_map` and `next_id` of the Python object are the
evident projections of this list. -/
abbrev IndexState : Type := List (String × Vec)

/-- Well-formedness: distinct page ids (the Python `reverse_map` is a dict,
so every reachable state satisfies this). -/
def WF (st : IndexState) : Prop := (st.map Prod.fst).Nodup

/-- `VectorIndex.add_vector` (indexer.py lines 39-126): normalize the
vector; if the page id is present, rebuild the flat index keeping every
other slot in ascending order and append the new vector at the end
(lines 55-117 rebuild, line 120 add); otherwise just append at the next
free slot. -/
noncomputable def add_vector (page_id : String) (vector : Vec) (st : IndexState) : IndexState :=
  let vec_np := normalize_L2 vector
  if st.any (fun e => e.1 = page_id) then
    (st.filter (fun e => e.1 ≠ page_id)) ++ [(page_id, vec_np)]
  else
    st ++ [(page_id, vec_np)]

/-- Result ordering used by `faiss.IndexFlatIP.search`: strictly higher
score first; equal scores ordered by ascending slot. -/
def searchRel : (ℕ × String × ℝ) → (ℕ × String × ℝ) → Prop :=
  fun a b => b.2.2 < a.2.2 ∨ (a.2.2 = b.2.2 ∧ a.1 ≤ b.1)

noncomputable instance : DecidableRel searchRel := fun _ _ => Classical.dec _

instance : IsTotal (ℕ × String × ℝ) searchRel where
  total a b := by
    rcases lt_trichotomy a.2.2 b.2.2 with h | h | h
    · exact Or.inr (Or.inl h)
    · rcases Nat.le_total a.1 b.1 with h' | h'
      · exact Or.inl (Or.inr ⟨h, h'⟩)
      · exact Or.inr (Or.inr ⟨h.symm, h'⟩)
    · exact Or.inl (Or.inl h)

instance : IsTrans (ℕ × String × ℝ) searchRel where
  trans a b c hab hbc := by
    rcases hab with hab | ⟨hab, hab'⟩
    · rcases hbc with hbc | ⟨hbc, _⟩
      · exact Or.inl (lt_trans hbc hab)
      · exact Or.inl (hbc ▸ hab)
    · rcases hbc with hbc | ⟨hbc, hbc'⟩
      · exact Or.inl (hab ▸ hbc)
      · exact Or.inr ⟨hab.trans hbc, le_trans hab' hbc'⟩

/-- The slot-annotated scores `(slot, page_id, ⟨q, v⟩)` computed by the
fused inner-product pass of `index.search` (indexer.py line 154). -/
noncomputable def scoredSlots (q : Vec) (st : IndexState) : List (ℕ × String × ℝ) :=
  st.enum.map (fun e => (e.1, e.2.1, dot q e.2.2))

/-- `VectorIndex.search` (indexer.py lines 128-167): normalize the query;
empty index returns `[]` (line 146-148); otherwise `k` is clamped to the
number of stored vectors (line 151) and the exact top-`k_effective`
matches are returned in descending-score order, ties by ascending slot
(the `if idx in self.id_map` guard on line 162 never fails in a reachable
state, where `id_map` has every slot). -/
noncomputable def search (query_vector : Vec) (k : ℕ) (st : IndexState) : List (String × ℝ) :=
  let query_np := normalize_L2 query_vector
  if st.length = 0 then []
  else
    let k_effective := min k st.length
    (((scoredSlots query_np st).insertionSort searchRel).take k_effective).map
      (fun e => (e.2.1, e.2.2))

/-- `VectorIndex.clear` (indexer.py lines 238-245): fresh empty index and
maps. -/
def clear (_st : IndexState) : IndexState := []

/-- `VectorIndex.bulk_add` (indexer.py lines 247-280).  An empty dict
returns early (lines 254-256) WITHOUT touching the index; otherwise a new
index is built from the dict alone (insertion order of the keys), each
vector normalized, and it replaces the old state.  The `page_vectors`
dict is modeled as a key-ordered association list. -/
noncomputable def bulk_add (page_vectors : List (String × Vec)) (st : IndexState) : IndexState :=
  if page_vectors.isEmpty then st
  else page_vectors.map (fun e => (e.1, normalize_L2 e.2))

/-- `total_vectors` field of `VectorIndex.get_stats` (indexer.py line
286): `index.ntotal`, the number of stored vectors. -/
def total_vectors (st : IndexState) : ℕ := st.length

lemma scoredSlots_map_pid (q : Vec) (st : IndexState) :
    (scoredSlots q st).map (fun e => e.2.1) = st.map Prod.fst := by
  unfold scoredSlots
  rw [List.map_map]
  have h1 : ((fun e : ℕ × String × ℝ => e.2.1) ∘
      (fun e : ℕ × (String × Vec) => (e.1, e.2.1, dot q e.2.2))) =
      (Prod.fst ∘ Prod.snd : ℕ × (String × Vec) → String) := rfl
  rw [h1, ← List.map_map, List.enum_map_snd]

lemma scoredSlots_length (q : Vec) (st : IndexState) :
    (scoredSlots q st).length = st.length := by
  unfold scoredSlots
  rw [List.length_map, List.enum_length]

lemma searchRel_score_le {a b : ℕ × String × ℝ} (h : searchRel a b) : b.2.2 ≤ a.2.2 := by
  rcases h with h | ⟨h, _⟩
  · exact le_of_lt h
  · exact le_of_eq h.symm

/-- Claim C4: for every index state holding `n` vectors, every query `q`
and every `k ≥ 1`, `search` returns exactly `min k n` pairs — the
highest inner-product matches of the normalized query against all stored
vectors, in non-increasing score order with ties broken by ascending
slot order — with all page ids distinct, and the empty index yields `[]`
rather than an error. -/
theorem search_topk_spec (st : IndexState) (q : Vec) (k : ℕ) (_hk : 1 ≤ k) (hwf : WF st) :
    (search q k st).length = min k st.length ∧
    (search q k st).Pairwise (fun a b => b.2 ≤ a.2) ∧
    ((search q k st).map Prod.fst).Nodup ∧
    (∀ p s, (p, s) ∈ search q k st → ∃ v, (p, v) ∈ st ∧ s = dot (normalize_L2 q) v) ∧
    (st = [] → search q k st = []) ∧
    ∃ l, (scoredSlots (normalize_L2 q) st).Perm l ∧ l.Pairwise searchRel ∧
      search q k st = (l.take (min k st.length)).map (fun e => (e.2.1, e.2.2)) ∧
      ∀ a ∈ l.take (min k st.length), ∀ b ∈ l.drop (min k st.length), b.2.2 ≤ a.2.2 := by
  by_cases hst : st = []
  · subst hst
    have hs : search q k [] = [] := by unfold search; simp
    refine ⟨?_, ?_, ?_, ?_, ?_, ?_⟩
    · rw [hs]; simp
    · rw [hs]; exact List.Pairwise.nil
    · rw [hs]; simp
    · intro p s hmem; rw [hs] at hmem; simp at hmem
    · intro _; exact hs
    · exact ⟨[], by unfold scoredSlots; simp, List.Pairwise.nil, by rw [hs]; simp, by simp⟩
  · have hlen : st.length ≠ 0 := fun h => hst (List.length_eq_zero.mp h)
    set q' := normalize_L2 q with hq'
    set L := (scoredSlots q' st).insertionSort searchRel with hL
    have hperm : L.Perm (scoredSlots q' st) := List.perm_insertionSort _ _
    have hsorted : List.Sorted searchRel L := List.sorted_insertionSort _ _
    have hLlen : L.length = st.length := by
      rw [hperm.length_eq, scoredSlots_length]
    have hsearch : search q k st =
        (L.take (min k st.length)).map (fun e => (e.2.1, e.2.2)) := by
      unfold search
      rw [if_neg hlen]
    have hmm : min (min k st.length) st.length = min k st.length := by
      rw [min_eq_left (min_le_right k st.length)]
    refine ⟨?_, ?_, ?_, ?_, ?_, ?_⟩
    · rw [hsearch, List.length_map, List.length_take, hLlen, hmm]
    · rw [hsearch]
      have h1 : (L.take (min k st.length)).Pairwise searchRel :=
        hsorted.sublist (List.take_sublist _ _)
      exact h1.map _ fun a b hab => searchRel_score_le hab
    · rw [hsearch, List.map_map]
      have h1 : ((fun x : String × ℝ => x.1) ∘ (fun e : ℕ × String × ℝ => (e.2.1, e.2.2))) =
          (fun e : ℕ × String × ℝ => e.2.1) := rfl
      rw [h1]
      have h2 : (L.map (fun e => e.2.1)).Nodup := by
        have := (hperm.map (fun e : ℕ × String × ℝ => e.2.1))
        rw [scoredSlots_map_pid] at this
        exact this.nodup_iff.mpr hwf
      exact h2.sublist ((List.take_sublist _ _).map _)
    · intro p s hmem
      rw [hsearch] at hmem
      obtain ⟨e, he, hfe⟩ := List.mem_map.mp hmem
      have heL : e ∈ L := (List.take_sublist _ _).mem he
      have hesc : e ∈ scoredSlots q' st := hperm.mem_iff.mp heL
      unfold scoredSlots at hesc
      obtain ⟨ip, hip, hgip⟩ := List.mem_map.mp hesc
      have hpv : ip.2 ∈ st := List.snd_mem_of_mem_enum hip
      refine ⟨ip.2.2, ?_, ?_⟩
      · have hp : ip.2.1 = p := by
          have := congrArg Prod.fst hfe
          rw [← hgip] at this
          exact this
        rw [← hp, Prod.mk.eta]
        exact hpv
      · have hs2 : s = e.2.2 := (congrArg Prod.snd hfe).symm
        rw [hs2, ← hgip]
    · intro h; exact absurd h hst
    · refine ⟨L, hperm.symm, hsorted, hsearch, ?_⟩
      intro a ha b hb
      exact searchRel_score_le (hsorted.rel_of_mem_take_of_mem_drop ha hb)

/-- Witness for `search_topk_spec` at a concrete two-vector index. -/
theorem search_topk_spec_witness :
    (1 ≤ 1 ∧ WF [("a", eVec 0), ("b", eVec 1)]) ∧
    (search (eVec 0) 1 [("a", eVec 0), ("b", eVec 1)]).length =
      min 1 (List.length [("a", eVec 0), ("b", eVec 1)]) :=
  ⟨⟨le_refl 1, by unfold WF; decide⟩,
    (search_topk_spec [("a", eVec 0), ("b", eVec 1)] (eVec 0) 1 (le_refl 1)
      (by unfold WF; decide)).1⟩

lemma add_vector_nil (p : String) (v : Vec) :
    add_vector p v [] = [(p, normalize_L2 v)] := by
  unfold add_vector; simp

lemma add_vector_singleton_self (p : String) (v w : Vec) :
    add_vector p v [(p, w)] = [(p, normalize_L2 v)] := by
  unfold add_vector; simp

lemma search_singleton (q : Vec) (p : String) (w : Vec) :
    search q 1 [(p, w)] = [(p, dot (normalize_L2 q) w)] := by
  unfold search scoredSlots
  simp [List.enum, List.insertionSort, List.orderedInsert]

/-- Claim C5: `Add(p, v1); Add(p, v2)` on the empty index leaves exactly
one entry for `p` (the second add does not change the count);
`Search(v2, 1)` returns `p` with score `1 ≥ 1 − 1e-6`, and `Search(v1, 1)`
scores `p` at exactly the inner product of the normalized `v1` and `v2`:
`add_vector` replaces the stored vector instead of duplicating the
entry. -/
theorem add_vector_replace_spec (p : String) (v1 v2 : Vec) (h2 : dot v2 v2 ≠ 0) :
    total_vectors (add_vector p v2 (add_vector p v1 [])) =
      total_vectors (add_vector p v1 []) ∧
    add_vector p v2 (add_vector p v1 []) = [(p, normalize_L2 v2)] ∧
    (∃ s, search v2 1 (add_vector p v2 (add_vector p v1 [])) = [(p, s)] ∧
      1 - 1/1000000 ≤ s) ∧
    search v1 1 (add_vector p v2 (add_vector p v1 [])) =
      [(p, dot (normalize_L2 v1) (normalize_L2 v2))] := by
  have hst1 : add_vector p v1 [] = [(p, normalize_L2 v1)] := add_vector_nil p v1
  have hst2 : add_vector p v2 (add_vector p v1 []) = [(p, normalize_L2 v2)] := by
    rw [hst1, add_vector_singleton_self]
  refine ⟨?_, hst2, ?_, ?_⟩
  · rw [hst2, hst1]
    simp [total_vectors]
  · refine ⟨dot (normalize_L2 v2) (normalize_L2 v2), ?_, ?_⟩
    · rw [hst2, search_singleton]
    · rw [dot_normalize_self v2 h2]; norm_num
  · rw [hst2, search_singleton]

/-- Witness for `add_vector_replace_spec` on two basis vectors. -/
theorem add_vector_replace_spec_witness :
    dot (eVec 1) (eVec 1) ≠ 0 ∧
    total_vectors (add_vector "p1" (eVec 1) (add_vector "p1" (eVec 0) [])) =
      total_vectors (add_vector "p1" (eVec 0) []) :=
  ⟨by rw [dot_eVec_self]; exact one_ne_zero,
    (add_vector_replace_spec "p1" (eVec 0) (eVec 1)
      (by rw [dot_eVec_self]; exact one_ne_zero)).1⟩

/-- Claim C6 counterexample: `bulk_add` of the EMPTY dict returns early
(indexer.py lines 254-256) and leaves the existing store untouched, so
`Stats.count` is 1, not `|M| = 0` — the claim fails for the empty map. -/
theorem bulk_add_empty_map_counterexample :
    bulk_add ([] : List (String × Vec)) [("a", eVec 0)] = [("a", eVec 0)] ∧
    total_vectors (bulk_add ([] : List (String × Vec)) [("a", eVec 0)]) = 1 ∧
    (1 : ℕ) ≠ List.length ([] : List (String × Vec)) :=
  ⟨rfl, rfl, by decide⟩

/-- Claim C6 (amended): for every NONEMPTY map `M`, `bulk_add M` discards
the previous store and rebuilds it from `M` alone, so `Stats.count = |M|`
and every key of `M` is retrievable via `search` (with `k = |M|`, any
query returns every stored page id); `bulk_add` of the empty map is a
no-op on the store. -/
theorem bulk_add_spec (M : List (String × Vec)) (st : IndexState)
    (hM : M ≠ []) (hnd : (M.map Prod.fst).Nodup) :
    bulk_add M st = M.map (fun e => (e.1, normalize_L2 e.2)) ∧
    total_vectors (bulk_add M st) = M.length ∧
    ∀ p ∈ M.map Prod.fst, ∀ q : Vec, ∃ s, (p, s) ∈ search q M.length (bulk_add M st) := by
  have hne : ¬ M.isEmpty = true := by
    cases M with
    | nil => exact absurd rfl hM
    | cons a l => simp [List.isEmpty]
  have heq : bulk_add M st = M.map (fun e => (e.1, normalize_L2 e.2)) := by
    unfold bulk_add
    rw [if_neg hne]
  have hlen : (bulk_add M st).length = M.length := by
    rw [heq, List.length_map]
  refine ⟨heq, hlen, ?_⟩
  intro p hp q
  have hlen0 : (bulk_add M st).length ≠ 0 := by
    rw [hlen]
    intro h
    exact hM (List.length_eq_zero.mp h)
  have hperm : ((scoredSlots (normalize_L2 q) (bulk_add M st)).insertionSort searchRel).Perm
      (scoredSlots (normalize_L2 q) (bulk_add M st)) := List.perm_insertionSort _ _
  have hLlen : ((scoredSlots (normalize_L2 q) (bulk_add M st)).insertionSort searchRel).length
      = M.length := by
    rw [hperm.length_eq, scoredSlots_length, hlen]
  have hmin : min M.length (bulk_add M st).length = M.length := by
    rw [hlen, min_self]
  have htake : ((scoredSlots (normalize_L2 q) (bulk_add M st)).insertionSort searchRel).take
      M.length = (scoredSlots (normalize_L2 q) (bulk_add M st)).insertionSort searchRel := by
    rw [← hLlen, List.take_length]
  have hsearch : search q M.length (bulk_add M st) =
      ((scoredSlots (normalize_L2 q) (bulk_add M st)).insertionSort searchRel).map
        (fun e => (e.2.1, e.2.2)) := by
    have h0 : search q M.length (bulk_add M st) =
        (((scoredSlots (normalize_L2 q) (bulk_add M st)).insertionSort searchRel).take
          (min M.length (bulk_add M st).length)).map (fun e => (e.2.1, e.2.2)) := by
      unfold search
      rw [if_neg hlen0]
    rw [h0, hmin, htake]
  have hpids : (search q M.length (bulk_add M st)).map Prod.fst =
      ((scoredSlots (normalize_L2 q) (bulk_add M st)).insertionSort searchRel).map
        (fun e => e.2.1) := by
    rw [hsearch, List.map_map]
    rfl
  have hLp : (((scoredSlots (normalize_L2 q) (bulk_add M st)).insertionSort searchRel).map
      (fun e => e.2.1)).Perm (M.map Prod.fst) := by
    have h1 := hperm.map (fun e : ℕ × String × ℝ => e.2.1)
    rw [scoredSlots_map_pid] at h1
    have h2 : (bulk_add M st).map Prod.fst = M.map Prod.fst := by
      rw [heq, List.map_map]
      rfl
    rw [h2] at h1
    exact h1
  have hpmem : p ∈ (search q M.length (bulk_add M st)).map Prod.fst := by
    rw [hpids]
    exact hLp.mem_iff.mpr hp
  obtain ⟨x, hx, hxp⟩ := List.mem_map.mp hpmem
  exact ⟨x.2, by rw [← hxp, Prod.mk.eta]; exact hx⟩

/-- Witness for `bulk_add_spec` on a concrete two-key map. -/
theorem bulk_add_spec_witness :
    ([("x", eVec 0), ("y", eVec 1)] ≠ ([] : List (String × Vec)) ∧
      (([("x", eVec 0), ("y", eVec 1)] : List (String × Vec)).map Prod.fst).Nodup) ∧
    total_vectors (bulk_add [("x", eVec 0), ("y", eVec 1)] [("a", eVec 0)]) =
      List.length [("x", eVec 0), ("y", eVec 1)] :=
  ⟨⟨by simp, by decide⟩,
    (bulk_add_spec [("x", eVec 0), ("y", eVec 1)] [("a", eVec 0)] (by simp) (by decide)).2.1⟩

/-- Conversion of a raw JSON number list into a vector (rows whose
`vector` field has length 768 are the only ones kept by the bootstrap
filter, so positions beyond the list are irrelevant). -/
noncomputable def toVec (l : List ℝ) : Vec := fun i => l.getD i 0

/-- Python dict insertion on an association list: an existing key keeps
its position and gets the new value, a new key is appended. -/
noncomputable def dictInsert (m : List (String × Vec)) (p : String) (v : Vec) :
    List (String × Vec) :=
  if m.any (fun e => e.1 = p) then
    m.map (fun e => if e.1 = p then (p, v) else e)
  else m ++ [(p, v)]

/-- The `batch` dict accumulated by the paged scan of `_bootstrap_index`
(main.py lines 382-387): rows with a truthy `page_id`, a truthy `vector`
and `len(vector) == 768` are collected, later rows overwriting earlier
ones with the same page id. -/
noncomputable def collectBatch (rows : List (String × List ℝ)) : List (String × Vec) :=
  rows.foldl
    (fun m r =>
      if r.1 ≠ "" ∧ r.2 ≠ [] ∧ r.2.length = 768 then dictInsert m r.1 (toVec r.2) else m)
    []

/-- Outcome of the paged Stargate scan inside `_bootstrap_index`:
`ok rows` — the loop terminated normally having collected `rows`;
`httpFail rows` — a page returned a non-200 status (main.py lines
372-374), which merely `break`s out of the loop keeping the rows
collected so far; `exn` — an exception escaped the scan (caught at line
402), so the batch is discarded. -/
inductive ScanOutcome where
  | ok (rows : List (String × List ℝ))
  | httpFail (rows : List (String × List ℝ))
  | exn

/-- `_bootstrap_index` (main.py lines 346-403): it FIRST clears the
index (line 351), then scans the upstream vector table, and finally
bulk-adds the batch if nonempty (lines 394-396).  On an exception the
handler only logs, leaving the index cleared. -/
noncomputable def bootstrap_index (outcome : ScanOutcome) (st : IndexState) : IndexState :=
  let cleared := clear st
  match outcome with
  | ScanOutcome.exn => cleared
  | ScanOutcome.ok rows =>
      let batch := collectBatch rows
      if batch.isEmpty then cleared else bulk_add batch cleared
  | ScanOutcome.httpFail rows =>
      let batch := collectBatch rows
      if batch.isEmpty then cleared else bulk_add batch cleared

/-- The index states observable by a concurrent reader during
`_bootstrap_index`: the pre-state, the state after `clear()` releases
the lock (line 351), and the final state.  `clear` and `bulk_add` take
the lock separately, so the cleared state is visible in between. -/
noncomputable def bootstrapTrace (outcome : ScanOutcome) (st : IndexState) : List IndexState :=
  [st, clear st, bootstrap_index outcome st]

/-- Claim C2 counterexample: a bootstrap that fails with an exception
does NOT leave the index as it was — the index was already cleared at
the start of `_bootstrap_index`, so a one-entry index ends up empty. -/
theorem bootstrap_failure_counterexample :
    bootstrap_index ScanOutcome.exn [("a", eVec 0)] = [] ∧
    ([("a", eVec 0)] : IndexState) ≠ [] :=
  ⟨rfl, by simp⟩

/-- Claim C2 (amended): `_bootstrap_index` clears the index before
scanning, so when the scan raises the index is left EMPTY rather than as
it was; and because `clear` and `bulk_add` are separate critical
sections, a concurrent `Search` can observe the cleared intermediate
state (the second entry of the observable-state trace), which is neither
the pre- nor the post-state in general.  A non-200 page response merely
stops the scan and loads the partial batch, exactly like a completed
scan of the same rows. -/
theorem bootstrap_amended_spec (outcome : ScanOutcome) (st : IndexState)
    (rows : List (String × List ℝ)) :
    bootstrap_index ScanOutcome.exn st = [] ∧
    bootstrapTrace outcome st = [st, [], bootstrap_index outcome st] ∧
    bootstrap_index (ScanOutcome.httpFail rows) st = bootstrap_index (ScanOutcome.ok rows) st :=
  ⟨rfl, rfl, rfl⟩

/-- A decoded CDC `after` record (`payload.get('after')` fields used by
the consumer); absent JSON fields are `none`. -/
structure CdcAfter where
  page_id : Option String
  body : Option String

/-- A decoded CDC payload (`data.get('payload', {})`). -/
structure CdcPayload where
  op : Option String
  after : Option CdcAfter

/-- A consumed Kafka message value: either JSON that fails to parse
(`json.JSONDecodeError` path) or a parsed payload. -/
inductive CdcMsg where
  | badJson
  | json (payload : CdcPayload)

/-- The guard cascade of `process_message`
(kafka_embedding_consumer.py lines 212-249): which `(page_id, body)` the
worker goes on to embed and store, if any.  Only `op ∈ {'c', 'u'}` passes
(line 231) — `'r'` (snapshot/read) and `'d'` (delete) are ignored; then
`after` must be present (line 237) and both `page_id` and `body` must be
truthy, i.e. present and nonempty (line 245). -/
def processAction (m : CdcMsg) : Option (String × String) :=
  match m with
  | CdcMsg.badJson => none
  | CdcMsg.json pl =>
    if ¬ (pl.op = some "c" ∨ pl.op = some "u") then none
    else
      match pl.after with
      | none => none
      | some a =>
        if a.page_id.getD "" = "" ∨ a.body.getD "" = "" then none
        else some (a.page_id.getD "", a.body.getD "")

/-- Outcome of a network call as seen by `process_message` after the
tenacity retries: a value, or an exception propagating out. -/
inductive NetCall (α : Type) where
  | ok (a : α)
  | exn

/-- How one call of `process_message` ends
(kafka_embedding_consumer.py lines 212-275): `processed` — embed, store
and stats update all ran; `skipped` — one of the guards returned early;
`errored` — bad JSON or an exception from embedding/storing, swallowed
by the `except` blocks at lines 268-275 which only bump
`error_count`.  `process_message` itself never raises. -/
inductive ProcOutcome where
  | processed
  | skipped
  | errored
deriving DecidableEq

/-- `process_message`, parametrized by the outcomes of the embedding
call and of the Stargate write (both may raise after their retries). -/
def process_message (m : CdcMsg) (embedRes : NetCall (List ℚ)) (storeRes : NetCall Bool) :
    ProcOutcome :=
  match m with
  | CdcMsg.badJson => ProcOutcome.errored
  | CdcMsg.json _ =>
    match processAction m with
    | none => ProcOutcome.skipped
    | some _ =>
      match embedRes with
      | NetCall.exn => ProcOutcome.errored
      | NetCall.ok _ =>
        match storeRes with
        | NetCall.exn => ProcOutcome.errored
        | NetCall.ok _ => ProcOutcome.processed

/-- What one poll of the `run_consumer` loop yields
(kafka_embedding_consumer.py lines 321-342). -/
inductive Polled where
  | nothing
  | kafkaErr
  | msg (m : CdcMsg)

/-- One iteration of the `run_consumer` loop: for a successfully polled
message it calls `process_message` and then `consumer.commit(msg)`
UNCONDITIONALLY (line 342) — `process_message` swallows every
exception, so the commit is reached whatever happened.  Returns the
processing outcome (if any) and whether the offset was committed. -/
def run_consumer_step (p : Polled) (embedRes : NetCall (List ℚ)) (storeRes : NetCall Bool) :
    Option ProcOutcome × Bool :=
  match p with
  | Polled.nothing => (none, false)
  | Polled.kafkaErr => (none, false)
  | Polled.msg m => (some (process_message m embedRes storeRes), true)

/-- A well-formed create event used as a concrete input. -/
def sampleCreateMsg : CdcMsg :=
  CdcMsg.json ⟨some "c", some ⟨some "p1", some "hello world"⟩⟩

/-- Claim C1 counterexample: on a valid create event whose embedding
call fails (and would fail upstream too), the worker still commits the
offset — `process_message` returns `errored` and `run_consumer` commits
unconditionally, so the event is NOT redelivered. -/
theorem offset_commit_counterexample :
    run_consumer_step (Polled.msg sampleCreateMsg) NetCall.exn NetCall.exn =
      (some ProcOutcome.errored, true) ∧
    (some ProcOutcome.errored, true).2 ≠ false := by
  constructor
  · rfl
  · decide

/-- Claim C1 (amended): the consumer commits the offset after EVERY
successfully polled message, regardless of whether the embedding call or
the upstream write failed — failures are swallowed inside
`process_message` (which only marks the event `errored`), so failed
events are not redelivered; no commit happens when the poll yields
nothing or a consumer error. -/
theorem offset_commit_amended_spec (m : CdcMsg) (embedRes : NetCall (List ℚ))
    (storeRes : NetCall Bool) :
    (run_consumer_step (Polled.msg m) embedRes storeRes).2 = true ∧
    (run_consumer_step Polled.nothing embedRes storeRes).2 = false ∧
    (run_consumer_step Polled.kafkaErr embedRes storeRes).2 = false ∧
    run_consumer_step (Polled.msg m) embedRes storeRes =
      (some (process_message m embedRes storeRes), true) :=
  ⟨rfl, rfl, rfl, rfl⟩

/-- Claim C8 counterexample: a snapshot event (Debezium op `'r'`) with a
valid page id and body is IGNORED by the worker (`op not in ['c', 'u']`,
line 231), while the same event with op `'c'` is processed — the claim
that snapshot events are embedded and stored fails. -/
theorem snapshot_ignored_counterexample :
    processAction (CdcMsg.json ⟨some "r", some ⟨some "p1", some "hello"⟩⟩) = none ∧
    processAction (CdcMsg.json ⟨some "c", some ⟨some "p1", some "hello"⟩⟩) =
      some ("p1", "hello") := by
  constructor
  · decide
  · decide

/-- Claim C8 (amended): the worker embeds and stores a page exactly when
the event parses, its op is `'c'` (create) or `'u'` (update), the
`after` record is present, and both `page_id` and `body` are present and
nonempty; every other event — including delete (`'d'`) AND snapshot
(`'r'`) — is ignored. -/
theorem process_event_filter_spec (m : CdcMsg) :
    (processAction m).isSome = true ↔
      ∃ pl a, m = CdcMsg.json pl ∧ (pl.op = some "c" ∨ pl.op = some "u") ∧
        pl.after = some a ∧ a.page_id.getD "" ≠ "" ∧ a.body.getD "" ≠ "" := by
  constructor
  · intro h
    match m with
    | CdcMsg.badJson => simp [processAction] at h
    | CdcMsg.json pl =>
      change (if ¬ (pl.op = some "c" ∨ pl.op = some "u") then (none : Option (String × String))
        else match pl.after with
          | none => none
          | some a =>
            if a.page_id.getD "" = "" ∨ a.body.getD "" = "" then none
            else some (a.page_id.getD "", a.body.getD "")).isSome = true at h
      by_cases hop : pl.op = some "c" ∨ pl.op = some "u"
      · rw [if_neg (not_not_intro hop)] at h
        cases hafter : pl.after with
        | none => rw [hafter] at h; simp at h
        | some a =>
          rw [hafter] at h
          change (if a.page_id.getD "" = "" ∨ a.body.getD "" = ""
            then (none : Option (String × String))
            else some (a.page_id.getD "", a.body.getD "")).isSome = true at h
          by_cases hpb : a.page_id.getD "" = "" ∨ a.body.getD "" = ""
          · rw [if_pos hpb] at h; simp at h
          · push_neg at hpb
            exact ⟨pl, a, rfl, hop, hafter, hpb.1, hpb.2⟩
      · rw [if_pos hop] at h
        simp at h
  · rintro ⟨pl, a, rfl, hop, hafter, hpid, hbody⟩
    change (if ¬ (pl.op = some "c" ∨ pl.op = some "u") then (none : Option (String × String))
      else match pl.after with
        | none => none
        | some a =>
          if a.page_id.getD "" = "" ∨ a.body.getD "" = "" then none
          else some (a.page_id.getD "", a.body.getD "")).isSome = true
    rw [if_neg (not_not_intro hop), hafter]
    change (if a.page_id.getD "" = "" ∨ a.body.getD "" = ""
      then (none : Option (String × String))
      else some (a.page_id.getD "", a.body.getD "")).isSome = true
    rw [if_neg (by push_neg; exact ⟨hpid, hbody⟩)]
    rfl

/-- Outcome of one HTTP call to the Ollama embeddings endpoint, as seen
after `response.json()`: the transport/HTTP layer raised; the parsed
JSON has no (or a null) `embedding` field; or it has an `embedding`
list. -/
inductive EmbedResp where
  | transportErr
  | missing
  | embedding (v : List ℚ)
deriving DecidableEq

/-- `embed_text` of the retrieval service (memory_rag/main.py lines
146-181): transport errors become HTTP 503; a missing/empty or
wrong-dimension embedding raises HTTP 500 (the inner `HTTPException` at
line 173 is re-caught at line 179 and re-raised, still as 500); there
are no retries on the query path.  The result is either an error status
or exactly the model's vector. -/
def main_embed_text (r : EmbedResp) : Except ℕ (List ℚ) :=
  match r with
  | EmbedResp.transportErr => Except.error 503
  | EmbedResp.missing => Except.error 500
  | EmbedResp.embedding v =>
    if v = [] ∨ v.length ≠ 768 then Except.error 500 else Except.ok v

/-- One attempt of the worker's `generate_embedding`
(kafka_embedding_consumer.py lines 71-117): a transport error raises
(to be retried by tenacity); a response WITHOUT an embedding returns a
768-dimensional ZERO vector (lines 97-100); a wrong-dimension embedding
is only logged as a warning and returned unchanged (lines 103-104). -/
def generate_embedding_attempt (r : EmbedResp) : NetCall (List ℚ) :=
  match r with
  | EmbedResp.transportErr => NetCall.exn
  | EmbedResp.missing => NetCall.ok (List.replicate 768 0)
  | EmbedResp.embedding v =>
    if v = [] then NetCall.ok (List.replicate 768 0) else NetCall.ok v

/-- The tenacity retry loop around `generate_embedding`
(`stop_after_attempt(5)`, `reraise=True`): attempt `i` uses response
`f i`; an exception on the last allowed attempt propagates. -/
def tenacityRetry (f : ℕ → EmbedResp) : ℕ → ℕ → NetCall (List ℚ)
  | _, 0 => NetCall.exn
  | i, fuel + 1 =>
    match generate_embedding_attempt (f i) with
    | NetCall.exn => tenacityRetry f (i + 1) fuel
    | NetCall.ok v => NetCall.ok v

/-- The worker's `generate_embedding` with its 5-attempt retry policy. -/
def generate_embedding (f : ℕ → EmbedResp) : NetCall (List ℚ) := tenacityRetry f 0 5

/-- `embed_text` of `memory_rag/embed_client.py` (lines 21-69): a cache
hit returns the cached vector; otherwise a missing embedding OR ANY
exception returns a 768-dimensional zero vector as a silent fallback
(lines 53-55 and 66-69); the dimension is never checked and the function
never raises. -/
def client_embed_text (cached : Option (List ℚ)) (r : EmbedResp) : List ℚ :=
  match cached with
  | some v => v
  | none =>
    match r with
    | EmbedResp.transportErr => List.replicate 768 0
    | EmbedResp.missing => List.replicate 768 0
    | EmbedResp.embedding v => if v = [] then List.replicate 768 0 else v

/-- Claim C3 counterexample: the worker's `generate_embedding` silently
substitutes a 768-zero vector when the model's response has no embedding
(no `EmbeddingError` is raised), and the query path reports a
wrong-dimension embedding as HTTP 500, not 503 (`ServiceUnavailable`). -/
theorem embed_zero_substitution_counterexample :
    generate_embedding (fun _ => EmbedResp.missing) = NetCall.ok (List.replicate 768 0) ∧
    client_embed_text none EmbedResp.transportErr = List.replicate 768 0 ∧
    main_embed_text (EmbedResp.embedding [1, 2]) = Except.error 500 ∧
    (500 : ℕ) ≠ 503 := by
  refine ⟨rfl, rfl, rfl, by decide⟩

/-- Claim C3 (amended): the query-path `embed_text` never substitutes a
vector — it returns the model's 768-dimensional vector or fails, with
503 only for transport errors and 500 for a missing, empty or
wrong-dimension embedding; the worker's `generate_embedding` fails after
its 5 retries when every attempt hits a transport error, but substitutes
a 768-zero vector for a missing embedding and passes wrong-dimension
vectors through; the bare embedding client substitutes a zero vector on
any failure instead of raising. -/
theorem embed_text_amended_spec :
    (∀ r v, main_embed_text r = Except.ok v → r = EmbedResp.embedding v ∧ v.length = 768) ∧
    main_embed_text EmbedResp.transportErr = Except.error 503 ∧
    (∀ v, v.length ≠ 768 → main_embed_text (EmbedResp.embedding v) = Except.error 500) ∧
    (∀ f, (∀ i, f i = EmbedResp.transportErr) → generate_embedding f = NetCall.exn) ∧
    generate_embedding_attempt EmbedResp.missing = NetCall.ok (List.replicate 768 0) ∧
    (∀ v, v ≠ [] → generate_embedding_attempt (EmbedResp.embedding v) = NetCall.ok v) ∧
    (∀ v, v ≠ [] → client_embed_text none (EmbedResp.embedding v) = v) ∧
    client_embed_text none EmbedResp.transportErr = List.replicate 768 0 := by
  refine ⟨?_, rfl, ?_, ?_, rfl, ?_, ?_, rfl⟩
  · intro r v h
    match r with
    | EmbedResp.transportErr => exact absurd h (by simp [main_embed_text])
    | EmbedResp.missing => exact absurd h (by simp [main_embed_text])
    | EmbedResp.embedding w =>
      change (if w = [] ∨ w.length ≠ 768 then (Except.error 500 : Except ℕ (List ℚ))
        else Except.ok w) = Except.ok v at h
      by_cases hw : w = [] ∨ w.length ≠ 768
      · rw [if_pos hw] at h; exact absurd h (by simp)
      · rw [if_neg hw] at h
        push_neg at hw
        cases h
        exact ⟨rfl, hw.2⟩
  · intro v hv
    show (if v = [] ∨ v.length ≠ 768 then (Except.error 500 : Except ℕ (List ℚ))
      else Except.ok v) = Except.error 500
    rw [if_pos (Or.inr hv)]
  · intro f hf
    unfold generate_embedding
    have h5 : ∀ fuel i, tenacityRetry f i fuel = NetCall.exn := by
      intro fuel
      induction fuel with
      | zero => intro i; rfl
      | succ n ih =>
        intro i
        unfold tenacityRetry
        rw [hf i]
        exact ih (i + 1)
    exact h5 5 0
  · intro v hv
    show (if v = [] then (NetCall.ok (List.replicate 768 0) : NetCall (List ℚ))
      else NetCall.ok v) = NetCall.ok v
    rw [if_neg hv]
  · intro v hv
    show (if v = [] then List.replicate 768 (0 : ℚ) else v) = v
    rw [if_neg hv]

/-- Witness for `embed_text_amended_spec`: a 2-dimensional embedding is
rejected by the query path with HTTP 500, and a permanently failing
transport makes the worker's retry loop raise. -/
theorem embed_text_amended_spec_witness :
    (([1, 2] : List ℚ).length ≠ 768 ∧
      main_embed_text (EmbedResp.embedding [1, 2]) = Except.error 500) ∧
    ((∀ i : ℕ, (fun _ : ℕ => EmbedResp.transportErr) i = EmbedResp.transportErr) ∧
      generate_embedding (fun _ => EmbedResp.transportErr) = NetCall.exn) :=
  ⟨⟨by decide, embed_text_amended_spec.2.2.1 [1, 2] (by decide)⟩,
    ⟨fun _ => rfl, embed_text_amended_spec.2.2.2.1 (fun _ => EmbedResp.transportErr)
      (fun _ => rfl)⟩⟩

/-- A Python float value as it arrives in the `/refresh` JSON body:
`json.loads` accepts the non-standard tokens `NaN`, `Infinity` and
`-Infinity`, so non-finite components are representable. -/
inductive PyFloat where
  | val (q : ℚ)
  | nan
  | inf
  | ninf
deriving DecidableEq

/-- Finiteness of a parsed float. -/
def PyFloat.finite : PyFloat → Bool
  | PyFloat.val _ => true
  | _ => false

/-- The pydantic validation of `RefreshBody` (memory_rag/main.py lines
62-74): `vector: List[float] = Field(min_items=768, max_items=768)` —
the ONLY constraint is the length; pydantic's `float` accepts non-finite
values (`allow_inf_nan` defaults to true), so no finiteness check
exists. -/
def refresh_validate (vector : List PyFloat) : Bool := vector.length = 768

/-- The entries handed to `vector_index.add_vector` by `/refresh`,
before numeric normalization: replace the entry of an existing page id
(appending it at the end, as `add_vector` rebuilds), else append. -/
def add_raw (page_id : String) (vector : List PyFloat)
    (st : List (String × List PyFloat)) : List (String × List PyFloat) :=
  (st.filter (fun e => e.1 ≠ page_id)) ++ [(page_id, vector)]

/-- The `POST /refresh` endpoint (memory_rag/main.py lines 216-227):
FastAPI rejects a body failing pydantic validation with HTTP 422
(RequestValidationError) — NOT 400; a valid body is acknowledged with
202 and the vector, finite or not, is stored via `add_vector`. -/
def refresh_endpoint (page_id : String) (vector : List PyFloat)
    (st : List (String × List PyFloat)) : ℕ × List (String × List PyFloat) :=
  if refresh_validate vector then (202, add_raw page_id vector st) else (422, st)

set_option maxRecDepth 20000 in
/-- Claim C7 counterexample: a wrong-length vector is rejected with HTTP
422, not the claimed 400; and a length-768 vector made entirely of NaN
components is ACCEPTED (202) and stored in the index rather than being
rejected with 422. -/
theorem refresh_validation_counterexample :
    (refresh_endpoint "p" (List.replicate 5 (PyFloat.val 0)) []).1 = 422 ∧
    (422 : ℕ) ≠ 400 ∧
    (refresh_endpoint "p" (List.replicate 768 PyFloat.nan) []).1 = 202 ∧
    ("p", List.replicate 768 PyFloat.nan) ∈
      (refresh_endpoint "p" (List.replicate 768 PyFloat.nan) []).2 ∧
    (List.replicate 768 PyFloat.nan).all PyFloat.finite = false := by
  refine ⟨rfl, by decide, ?_, ?_, ?_⟩
  · simp [refresh_endpoint, refresh_validate]
  · simp [refresh_endpoint, refresh_validate, add_raw]
  · cases hb : (List.replicate 768 PyFloat.nan).all PyFloat.finite with
    | false => rfl
    | true =>
      have h2 := List.all_eq_true.mp hb PyFloat.nan
        (List.mem_replicate.mpr ⟨by norm_num, rfl⟩)
      simp [PyFloat.finite] at h2

/-- Claim C7 (amended): `/refresh` fails with HTTP 422 (FastAPI request
validation) exactly when `len(vector) ≠ 768`; any length-768 vector —
including one with non-finite components — is accepted with 202 and its
entry is stored. -/
theorem refresh_endpoint_spec (page_id : String) (vector : List PyFloat)
    (st : List (String × List PyFloat)) :
    (vector.length ≠ 768 → refresh_endpoint page_id vector st = (422, st)) ∧
    (vector.length = 768 →
      (refresh_endpoint page_id vector st).1 = 202 ∧
      (page_id, vector) ∈ (refresh_endpoint page_id vector st).2) := by
  constructor
  · intro h
    unfold refresh_endpoint refresh_validate
    rw [if_neg (by simpa using h)]
  · intro h
    have hv : refresh_validate vector = true := by
      unfold refresh_validate
      simpa using h
    unfold refresh_endpoint
    rw [if_pos hv]
    constructor
    · rfl
    · unfold add_raw
      simp

set_option maxRecDepth 20000 in
/-- Witness for `refresh_endpoint_spec`: the all-NaN length-768 vector is
accepted and stored. -/
theorem refresh_endpoint_spec_witness :
    (List.replicate 768 PyFloat.nan).length = 768 ∧
    (refresh_endpoint "p" (List.replicate 768 PyFloat.nan) []).1 = 202 :=
  ⟨by simp,
    ((refresh_endpoint_spec "p" (List.replicate 768 PyFloat.nan) []).2 (by simp)).1⟩

/-- A retrieval candidate as the reranker sees it: a dict with the
`quote` text and an optional `score` (`x.get(score_key, 0)` defaults a
missing score to 0). -/
structure Cand where
  quote : String
  score : Option ℚ
deriving DecidableEq

/-- `x.get(score_key, 0)` (reranker.py lines 107, 112, 131, 151). -/
def candScore (c : Cand) : ℚ := c.score.getD 0

/-- The sort key used by every `sorted(candidates, key=..., reverse=True)`
in `Reranker.rerank`: descending existing score. -/
def byScoreDesc (a b : Cand) : Prop := candScore b ≤ candScore a

instance : DecidableRel byScoreDesc := fun a b =>
  inferInstanceAs (Decidable (candScore b ≤ candScore a))

instance : IsTotal Cand byScoreDesc := ⟨fun a b => le_total (candScore b) (candScore a)⟩

instance : IsTrans Cand byScoreDesc := ⟨fun _ _ _ hab hbc => le_trans hbc hab⟩

/-- `sorted(candidates, key=lambda x: x.get(score_key, 0), reverse=True)`. -/
def sortByScoreDesc (candidates : List Cand) : List Cand :=
  List.insertionSort byScoreDesc candidates

/-- The in-place rescoring loop (reranker.py lines 127-128):
`candidates[i][score_key] = float(cross_scores[i])`.  `CrossEncoder
.predict` returns one score per input pair, so `cross_scores` has the
same length as `candidates`. -/
def applyScores (candidates : List Cand) (cross_scores : List ℚ) : List Cand :=
  candidates.enum.map (fun e =>
    match cross_scores.get? e.1 with
    | some s => { e.2 with score := some s }
    | none => e.2)

/-- `Reranker.rerank` (reranker.py lines 77-151), parametrized by the
`USE_RERANKER` flag, the `initialized` state (`self.model is None`
coincides with it), and the outcome of `self.model.predict` (`none` when
it raises, in which case the `except` at lines 142-151 falls back to the
original ranking).  Every path returns; nothing propagates. -/
def rerank (useReranker initialized : Bool) (predictRes : Option (List ℚ))
    (candidates : List Cand) (top_k : ℕ) : List Cand :=
  if useReranker = false then (sortByScoreDesc candidates).take top_k
  else if initialized = false then (sortByScoreDesc candidates).take top_k
  else if candidates.isEmpty then []
  else
    match predictRes with
    | none => (sortByScoreDesc candidates).take top_k
    | some cross_scores => (sortByScoreDesc (applyScores candidates cross_scores)).take top_k

/-- Claim C10: `Reranker.rerank` is total (never propagates an
exception) and returns at most `top_k` candidates; when the reranker is
disabled, uninitialized, or the model call raises, it returns the input
candidates sorted by their existing score in descending order and
truncated to `top_k` (`sortByScoreDesc` is a genuine descending sort of
the input); and an empty candidate list always yields `[]`. -/
theorem rerank_spec (u i : Bool) (pr : Option (List ℚ)) (cands : List Cand) (k : ℕ) :
    (rerank u i pr cands k).length ≤ k ∧
    rerank false i pr cands k = (sortByScoreDesc cands).take k ∧
    rerank u false pr cands k = (sortByScoreDesc cands).take k ∧
    rerank u i none cands k = (sortByScoreDesc cands).take k ∧
    rerank u i pr [] k = [] ∧
    (sortByScoreDesc cands).Perm cands ∧
    (sortByScoreDesc cands).Pairwise byScoreDesc := by
  refine ⟨?_, ?_, ?_, ?_, ?_, List.perm_insertionSort _ _, List.sorted_insertionSort _ _⟩
  · cases u <;> cases i <;> cases pr <;> cases cands <;>
      simp [rerank, List.length_take]
  · simp [rerank]
  · cases u <;> simp [rerank]
  · cases u <;> cases i <;> cases cands <;>
      simp [rerank, sortByScoreDesc, List.insertionSort]
  · cases u <;> cases i <;> cases pr <;>
      simp [rerank, sortByScoreDesc, List.insertionSort, applyScores]

/-- Sentence-terminator characters of `re.split(r'(?<=[.!?])\s+', ...)`. -/
def isTermChar (c : Char) : Bool := c = '.' ∨ c = '!' ∨ c = '?'

/-- Whether a char list starts with whitespace. -/
def headIsWS : List Char → Bool
  | [] => false
  | c :: _ => c.isWhitespace

/-- Python `\w` (ASCII): letters, digits, underscore. -/
def isWordChar (c : Char) : Bool := c.isAlphanum ∨ c = '_'

/-- A char surviving `re.sub(r'[^\w\s]', '', ...)`. -/
def keepChar (c : Char) : Bool := isWordChar c ∨ c.isWhitespace

/-- Character-level scan implementing `re.split(r'(?<=[.!?])\s+', text)`
(slice_logic.py line 68): a maximal whitespace run immediately preceded
by `.`, `!` or `?` separates sentences; the separator is consumed; a
trailing separator yields a final empty piece, as in Python.  `cur` is
the current piece reversed; `sep` is true while consuming a separator
run. -/
def bqSplitGo : List Char → List Char → Bool → List (List Char)
  | [], cur, _ => [cur.reverse]
  | c :: rest, cur, sep =>
    if sep ∧ c.isWhitespace then bqSplitGo rest cur true
    else if isTermChar c ∧ headIsWS rest then (c :: cur).reverse :: bqSplitGo rest [] true
    else bqSplitGo rest (c :: cur) false

/-- The sentence list computed by `best_quote`
(`re.split(r'(?<=[.!?])\s+', text)`, without the strip/filter cleanup of
`split_into_sentences`, which `best_quote` does not use). -/
def bqSentences (text : String) : List String :=
  (bqSplitGo text.data [] false).map (fun l => String.mk l)

/-- Character-level scan implementing both `re.findall(r'\S+', text)`
(`tokenize_text`, slice_logic.py line 32) and Python `str.split()`:
maximal nonempty runs of non-whitespace characters.  `cur` is the
current token reversed. -/
def wsTokensGo : List Char → List Char → List (List Char)
  | [], cur => if cur.isEmpty then [] else [cur.reverse]
  | c :: rest, cur =>
    if c.isWhitespace then
      if cur.isEmpty then wsTokensGo rest [] else cur.reverse :: wsTokensGo rest []
    else wsTokensGo rest (c :: cur)

/-- `tokenize_text` (slice_logic.py lines 21-32), also used for every
`.split()` in the module. -/
def tokenize_text (s : String) : List String :=
  (wsTokensGo s.data []).map (fun l => String.mk l)

/-- `re.sub(r'[^\w\s]', '', cs.lower())` at the character level: lower
every char, keep only word chars and whitespace. -/
def cleanChars (cs : List Char) : List Char := (cs.map Char.toLower).filter keepChar

/-- `re.sub(r'[^\w\s]', '', s.lower())` (slice_logic.py lines 76, 82,
149, 150). -/
def clean_str (s : String) : String := String.mk (cleanChars s.data)

/-- `' '.join` at the character level. -/
def joinL : List (List Char) → List Char
  | [] => []
  | [w] => w
  | w :: ws => w ++ ' ' :: joinL ws

/-- Python `" ".join(words)`. -/
def joinSp (ws : List String) : String := String.mk (joinL (ws.map String.data))

/-- `MAX_WORDS` (slice_logic.py line 17). -/
def MAX_WORDS : ℕ := 40

/-- The deduplicated query token set
`set(re.sub(r'[^\w\s]', '', query.lower()).split())` (lines 76-77). -/
def bqQueryTokens (query : String) : List String :=
  (tokenize_text (clean_str query)).dedup

/-- `query_tokens.intersection(sentence_tokens)` (line 86), as the
filtered deduplicated sentence token list (same cardinality). -/
def bqCommon (query sentence : String) : List String :=
  ((tokenize_text (clean_str sentence)).dedup).filter (fun t => t ∈ bqQueryTokens query)

/-- The `scored_sentences` loop of `best_quote` (lines 80-99): sentences
with an empty intersection are skipped; otherwise the combined score is
`0.7 · |Q ∩ S| / |Q| + 0.3 · ratio(query_clean, sentence_clean)`, with
`ratio` the `SequenceMatcher.ratio` similarity (an uninterpreted
parameter of the embedding). -/
def bqScored (ratio : String → String → ℚ) (query : String) (sentences : List String) :
    List (String × ℚ) :=
  sentences.filterMap (fun sentence =>
    if bqCommon query sentence = [] then none
    else some (sentence,
      7/10 * (((bqCommon query sentence).length : ℚ) / (bqQueryTokens query).length) +
        3/10 * ratio (clean_str query) (clean_str sentence)))

/-- `" ".join(words[:min(max_words, len(words))])` for the word list of
`s` (lines 72-73 and 103-104). -/
def bqTrunc (max_words : ℕ) (s : String) : String :=
  joinSp ((tokenize_text s).take (min max_words (tokenize_text s).length))

/-- `scored_sentences.sort(key=lambda x: x[1], reverse=True)` followed by
`[0][0]` (lines 107-108): the highest-scoring sentence, earliest on ties
(Python's sort is stable and `reverse=True` keeps stability). -/
def bqBest (ratio : String → String → ℚ) (query text : String) : String :=
  ((List.insertionSort (fun a b => b.2 ≤ a.2)
    (bqScored ratio query (bqSentences text))).headD ("", 0)).1

/-- The context window of lines 111-118: one sentence each side of the
best sentence (`sentences.index` finds the first occurrence), joined
with spaces. -/
def bqWiden (sentences : List String) (best_sentence : String) : String :=
  joinSp ((sentences.drop (sentences.indexOf best_sentence - 1)).take
    (min sentences.length (sentences.indexOf best_sentence + 2)
      - (sentences.indexOf best_sentence - 1)))

/-- The scored branch of `best_quote` (lines 106-132): widen a short
best sentence, then truncate to `max_words` words. -/
def bqScoredBranch (ratio : String → String → ℚ) (query text : String) (max_words : ℕ) :
    String :=
  if 2 * (tokenize_text (bqBest ratio query text)).length < max_words then
    if max_words < (tokenize_text (bqWiden (bqSentences text) (bqBest ratio query text))).length
    then joinSp ((tokenize_text (bqWiden (bqSentences text)
      (bqBest ratio query text))).take max_words)
    else bqWiden (bqSentences text) (bqBest ratio query text)
  else
    if max_words < (tokenize_text (bqBest ratio query text)).length then
      joinSp ((tokenize_text (bqBest ratio query text)).take max_words)
    else bqBest ratio query text

/-- `best_quote` (slice_logic.py lines 51-132).  Empty text yields `""`;
with at most one sentence the text's first `max_words` words are
returned; otherwise sentences sharing tokens with the query are scored
and, when none scores, the FIRST SENTENCE's first `max_words` words are
returned (line 103: `sentences[0]`, not the whole body); the best-scored
sentence (stable descending sort, so earliest on ties) is widened by one
sentence on each side when shorter than `max_words / 2`, and truncated
to `max_words` words. -/
def best_quote (ratio : String → String → ℚ) (query text : String) (max_words : ℕ) : String :=
  if text = "" then ""
  else if (bqSentences text).length ≤ 1 then bqTrunc max_words text
  else if bqScored ratio query (bqSentences text) = [] then
    bqTrunc max_words ((bqSentences text).headD "")
  else bqScoredBranch ratio query text max_words

/-- `find_passage_containing_query` (slice_logic.py lines 134-155):
the best quote plus a token-overlap score; an empty query token set
scores 0.1, otherwise `|Q ∩ P| / |Q|`. -/
def find_passage_containing_query (ratio : String → String → ℚ) (text query : String)
    (max_words : ℕ) : String × ℚ :=
  (best_quote ratio query text max_words,
    if bqQueryTokens query = [] then 1/10
    else ((((tokenize_text (clean_str (best_quote ratio query text max_words))).dedup).filter
      (fun t => t ∈ bqQueryTokens query)).length : ℚ) / (bqQueryTokens query).length)

/-- One entry of the list returned by `extract_relevant_quotes`. -/
structure QuoteResult where
  quote : String
  score : ℚ
  char_count : ℕ
  word_count : ℕ
deriving DecidableEq

/-- `extract_relevant_quotes` (slice_logic.py lines 157-194): empty text
or query (or `max_quotes < 1`) yields `[]`; a nonempty best passage is
returned with its overlap score; only when the passage is EMPTY does the
0.1-scored fallback of the first `MAX_WORDS` body tokens apply. -/
def extract_relevant_quotes (ratio : String → String → ℚ) (text query : String)
    (max_quotes : ℕ) : List QuoteResult :=
  if text = "" ∨ query = "" ∨ max_quotes < 1 then []
  else if (find_passage_containing_query ratio text query MAX_WORDS).1 ≠ "" then
    [⟨(find_passage_containing_query ratio text query MAX_WORDS).1,
      (find_passage_containing_query ratio text query MAX_WORDS).2,
      (find_passage_containing_query ratio text query MAX_WORDS).1.length,
      (tokenize_text (find_passage_containing_query ratio text query MAX_WORDS).1).length⟩]
  else
    [⟨joinSp ((tokenize_text text).take MAX_WORDS), 1/10,
      (joinSp ((tokenize_text text).take MAX_WORDS)).length,
      ((tokenize_text text).take MAX_WORDS).length⟩]

lemma isEmpty_false_of_ne_nil {α : Type} {l : List α} (h : l ≠ []) : l.isEmpty = false := by
  cases l with
  | nil => exact absurd rfl h
  | cons a l => rfl

lemma char_toNat_ofNat (n : ℕ) (h : Char.isValidCharNat n) : (Char.ofNat n).toNat = n := by
  rw [Char.ofNat, dif_pos h]
  simp [Char.ofNatAux, Char.toNat, UInt32.ofNat', UInt32.toNat]

lemma ws_toLower (c : Char) (h : c.isWhitespace = true) : Char.toLower c = c := by
  have h4 : c = ' ' ∨ c = '\t' ∨ c = '\r' ∨ c = '\n' := by
    simpa [Char.isWhitespace, or_assoc] using h
  rcases h4 with rfl | rfl | rfl | rfl <;> decide

lemma toLower_not_ws (c : Char) (h : c.isWhitespace = false) :
    (Char.toLower c).isWhitespace = false := by
  unfold Char.toLower
  show (if c.toNat ≥ 65 ∧ c.toNat ≤ 90 then Char.ofNat (c.toNat + 32) else c).isWhitespace = false
  split
  case isTrue hc =>
    have hv : Char.isValidCharNat (c.toNat + 32) := Or.inl (by omega)
    have ht : (Char.ofNat (c.toNat + 32)).toNat = c.toNat + 32 := char_toNat_ofNat _ hv
    have h1 : Char.ofNat (c.toNat + 32) ≠ ' ' := by
      intro he
      have := congrArg Char.toNat he
      rw [ht] at this
      have h32 : (' ' : Char).toNat = 32 := by decide
      omega
    have h2 : Char.ofNat (c.toNat + 32) ≠ '\t' := by
      intro he
      have := congrArg Char.toNat he
      rw [ht] at this
      have h9 : ('\t' : Char).toNat = 9 := by decide
      omega
    have h3 : Char.ofNat (c.toNat + 32) ≠ '\r' := by
      intro he
      have := congrArg Char.toNat he
      rw [ht] at this
      have h13 : ('\r' : Char).toNat = 13 := by decide
      omega
    have h4 : Char.ofNat (c.toNat + 32) ≠ '\n' := by
      intro he
      have := congrArg Char.toNat he
      rw [ht] at this
      have h10 : ('\n' : Char).toNat = 10 := by decide
      omega
    simp [Char.isWhitespace, h1, h2, h3, h4]
  case isFalse => exact h

lemma keepChar_of_ws (c : Char) (h : c.isWhitespace = true) : keepChar c = true := by
  simp [keepChar, h]

lemma wsTokensGo_append (w : List Char) (cs cur : List Char)
    (hw : ∀ c ∈ w, c.isWhitespace = false) :
    wsTokensGo (w ++ cs) cur = wsTokensGo cs (w.reverse ++ cur) := by
  induction w generalizing cur with
  | nil => simp
  | cons c w ih =>
    have hc : c.isWhitespace = false := hw c (by simp)
    show wsTokensGo (c :: (w ++ cs)) cur = _
    rw [show wsTokensGo (c :: (w ++ cs)) cur = wsTokensGo (w ++ cs) (c :: cur) from by
      simp only [wsTokensGo]
      rw [if_neg (by simp [hc])]]
    rw [ih (c :: cur) (fun d hd => hw d (by simp [hd]))]
    simp

lemma wsTokensGo_joinL (ws : List (List Char))
    (hws : ∀ w ∈ ws, w ≠ [] ∧ ∀ c ∈ w, c.isWhitespace = false) :
    wsTokensGo (joinL ws) [] = ws := by
  induction ws with
  | nil => rfl
  | cons w ws ih =>
    have hw := hws w (by simp)
    cases ws with
    | nil =>
      rw [show joinL [w] = w from rfl]
      rw [show (w : List Char) = w ++ [] from by simp, wsTokensGo_append w [] [] hw.2]
      have hne : (w.reverse ++ ([] : List Char)).isEmpty = false := by
        apply isEmpty_false_of_ne_nil
        simp [hw.1]
      simp only [wsTokensGo, hne]
      simp
    | cons w' ws' =>
      rw [show joinL (w :: w' :: ws') = w ++ ' ' :: joinL (w' :: ws') from rfl]
      rw [wsTokensGo_append w _ [] hw.2]
      have hne : (w.reverse ++ ([] : List Char)).isEmpty = false := by
        apply isEmpty_false_of_ne_nil
        simp [hw.1]
      rw [show wsTokensGo (' ' :: joinL (w' :: ws')) (w.reverse ++ []) =
          (w.reverse ++ []).reverse :: wsTokensGo (joinL (w' :: ws')) [] from by
        simp only [wsTokensGo, hne]
        rw [if_pos (by decide)]
        simp [hne]]
      rw [ih (fun u hu => hws u (by simp [hu]))]
      simp

lemma wsTokensGo_mem_spec (cs : List Char) :
    ∀ (cur : List Char), (∀ c ∈ cur, c.isWhitespace = false) →
      ∀ t ∈ wsTokensGo cs cur, t ≠ [] ∧ ∀ c ∈ t, c.isWhitespace = false := by
  induction cs with
  | nil =>
    intro cur hcur t ht
    by_cases hc : cur = []
    · subst hc
      simp [wsTokensGo] at ht
    · rw [show wsTokensGo [] cur = [cur.reverse] from by
        simp only [wsTokensGo, isEmpty_false_of_ne_nil hc]
        simp] at ht
      simp at ht
      subst ht
      exact ⟨by simp [hc], fun c hcm => hcur c (List.mem_reverse.mp hcm)⟩
  | cons c rest ih =>
    intro cur hcur t ht
    by_cases hcw : c.isWhitespace = true
    · by_cases hc : cur = []
      · subst hc
        rw [show wsTokensGo (c :: rest) [] = wsTokensGo rest [] from by
          simp only [wsTokensGo]
          rw [if_pos hcw]
          simp] at ht
        exact ih [] (by simp) t ht
      · rw [show wsTokensGo (c :: rest) cur = cur.reverse :: wsTokensGo rest [] from by
          simp only [wsTokensGo, isEmpty_false_of_ne_nil hc]
          rw [if_pos hcw]
          simp] at ht
        rcases List.mem_cons.mp ht with rfl | ht'
        · exact ⟨by simp [hc], fun d hdm => hcur d (List.mem_reverse.mp hdm)⟩
        · exact ih [] (by simp) t ht'
    · have hcf : c.isWhitespace = false := by
        cases hcv : c.isWhitespace
        · rfl
        · exact absurd hcv hcw
      rw [show wsTokensGo (c :: rest) cur = wsTokensGo rest (c :: cur) from by
        simp only [wsTokensGo]
        rw [if_neg (by simp [hcf])]] at ht
      refine ih (c :: cur) ?_ t ht
      intro d hd
      rcases List.mem_cons.mp hd with rfl | hd'
      · exact hcf
      · exact hcur d hd'

lemma cleanChars_nil : cleanChars [] = [] := rfl

lemma cleanChars_cons (c : Char) (l : List Char) :
    cleanChars (c :: l) =
      if keepChar (Char.toLower c) then Char.toLower c :: cleanChars l else cleanChars l := by
  simp [cleanChars, List.filter_cons]

lemma cleanChars_reverse (l : List Char) : cleanChars l.reverse = (cleanChars l).reverse := by
  simp [cleanChars]

lemma mk_ne_empty_of_ne_nil {l : List Char} (h : l ≠ []) : String.mk l ≠ "" :=
  fun hs => h (congrArg String.data hs)

lemma ne_nil_of_mk_ne_empty {l : List Char} (h : String.mk l ≠ "") : l ≠ [] :=
  fun hl => h (hl ▸ rfl)

lemma wsTokensGo_cleanChars (cs : List Char) : ∀ (cur : List Char),
    wsTokensGo (cleanChars cs) (cleanChars cur) =
      ((wsTokensGo cs cur).map cleanChars).filter (fun t => t ≠ []) := by
  induction cs with
  | nil =>
    intro cur
    by_cases hc : cur = []
    · subst hc
      simp [wsTokensGo, cleanChars]
    · have h1 : wsTokensGo [] cur = [cur.reverse] := by
        simp only [wsTokensGo, isEmpty_false_of_ne_nil hc]
        simp
      rw [show cleanChars ([] : List Char) = [] from rfl, h1]
      by_cases hcc : cleanChars cur = []
      · have h2 : wsTokensGo [] (cleanChars cur) = [] := by rw [hcc]; rfl
        rw [h2]
        simp [cleanChars_reverse, hcc]
      · have h2 : wsTokensGo [] (cleanChars cur) = [(cleanChars cur).reverse] := by
          simp only [wsTokensGo, isEmpty_false_of_ne_nil hcc]
          simp
        rw [h2]
        simp [cleanChars_reverse, hcc]
  | cons c rest ih =>
    intro cur
    rw [cleanChars_cons]
    by_cases hcw : c.isWhitespace = true
    · rw [ws_toLower c hcw, if_pos (keepChar_of_ws c hcw)]
      by_cases hc : cur = []
      · subst hc
        have e1 : wsTokensGo (c :: cleanChars rest) (cleanChars ([] : List Char)) =
            wsTokensGo (cleanChars rest) [] := by
          simp only [wsTokensGo]
          rw [if_pos hcw]
          simp [cleanChars]
        have e2 : wsTokensGo (c :: rest) ([] : List Char) = wsTokensGo rest [] := by
          simp only [wsTokensGo]
          rw [if_pos hcw]
          simp
        rw [e1, e2]
        have h3 := ih []
        rw [show cleanChars ([] : List Char) = [] from rfl] at h3
        exact h3
      · have e2 : wsTokensGo (c :: rest) cur = cur.reverse :: wsTokensGo rest [] := by
          simp only [wsTokensGo, isEmpty_false_of_ne_nil hc]
          rw [if_pos hcw]
          simp
        rw [e2]
        have h3 := ih []
        rw [show cleanChars ([] : List Char) = [] from rfl] at h3
        by_cases hcc : cleanChars cur = []
        · have e1 : wsTokensGo (c :: cleanChars rest) (cleanChars cur) =
              wsTokensGo (cleanChars rest) [] := by
            simp only [wsTokensGo]
            rw [if_pos hcw, if_pos (by rw [hcc]; rfl)]
          rw [e1, h3]
          simp [cleanChars_reverse, hcc, List.filter_cons]
        · have e1 : wsTokensGo (c :: cleanChars rest) (cleanChars cur) =
              (cleanChars cur).reverse :: wsTokensGo (cleanChars rest) [] := by
            simp only [wsTokensGo, isEmpty_false_of_ne_nil hcc]
            rw [if_pos hcw]
            simp
          rw [e1, h3]
          simp [cleanChars_reverse, hcc, List.filter_cons]
    · have hcf : c.isWhitespace = false := by
        cases hcv : c.isWhitespace
        · rfl
        · exact absurd hcv hcw
      have hlc : (Char.toLower c).isWhitespace = false := toLower_not_ws c hcf
      have e2 : wsTokensGo (c :: rest) cur = wsTokensGo rest (c :: cur) := by
        simp only [wsTokensGo]
        rw [if_neg (by simp [hcf])]
      rw [e2]
      by_cases hk : keepChar (Char.toLower c) = true
      · rw [if_pos hk]
        have e1 : wsTokensGo (Char.toLower c :: cleanChars rest) (cleanChars cur) =
            wsTokensGo (cleanChars rest) (Char.toLower c :: cleanChars cur) := by
          simp only [wsTokensGo]
          rw [if_neg (by simp [hlc])]
        rw [e1, show Char.toLower c :: cleanChars cur = cleanChars (c :: cur) from by
          rw [cleanChars_cons, if_pos hk]]
        exact ih (c :: cur)
      · rw [if_neg hk]
        rw [show cleanChars cur = cleanChars (c :: cur) from by
          rw [cleanChars_cons, if_neg hk]]
        exact ih (c :: cur)

lemma map_mk_filter (l : List (List Char)) :
    ((l.map cleanChars).filter (fun t => t ≠ [])).map (fun t => String.mk t) =
      ((l.map (fun t => String.mk t)).map (fun w => String.mk (cleanChars w.data))).filter
        (fun w => w ≠ "") := by
  induction l with
  | nil => rfl
  | cons t ts ih =>
    simp only [List.map_cons, List.filter_cons]
    by_cases ht : cleanChars t = []
    · rw [if_neg (by simp [ht]), if_neg ?_]
      · exact ih
      · rw [ht]
        decide
    · rw [if_pos (by simp [ht]), if_pos ?_]
      · rw [List.map_cons, ih]
      · simp only [decide_eq_true_eq]
        exact mk_ne_empty_of_ne_nil ht

lemma tokenize_clean_str (s : String) :
    tokenize_text (clean_str s) =
      ((tokenize_text s).map (fun w => clean_str w)).filter (fun w => w ≠ "") := by
  unfold tokenize_text clean_str
  rw [show (String.mk (cleanChars s.data)).data = cleanChars s.data from rfl]
  rw [show wsTokensGo (cleanChars s.data) [] =
      wsTokensGo (cleanChars s.data) (cleanChars []) from rfl]
  rw [wsTokensGo_cleanChars]
  exact map_mk_filter (wsTokensGo s.data [])

lemma tokenize_mem_spec (s : String) :
    ∀ t ∈ tokenize_text s, t ≠ "" ∧ ∀ c ∈ t.data, c.isWhitespace = false := by
  intro t ht
  unfold tokenize_text at ht
  obtain ⟨l, hl, rfl⟩ := List.mem_map.mp ht
  have := wsTokensGo_mem_spec s.data [] (by simp) l hl
  exact ⟨mk_ne_empty_of_ne_nil this.1, this.2⟩

lemma tokenize_joinSp (ws : List String)
    (hws : ∀ w ∈ ws, w ≠ "" ∧ ∀ c ∈ w.data, c.isWhitespace = false) :
    tokenize_text (joinSp ws) = ws := by
  unfold tokenize_text joinSp
  rw [show (String.mk (joinL (ws.map String.data))).data = joinL (ws.map String.data) from rfl]
  rw [wsTokensGo_joinL (ws.map String.data) ?_]
  · rw [List.map_map]
    have h1 : ∀ w ∈ ws, ((fun t => String.mk t) ∘ String.data) w = id w := fun w _ => rfl
    rw [List.map_congr_left h1, List.map_id]
  · intro w hw
    obtain ⟨x, hx, rfl⟩ := List.mem_map.mp hw
    refine ⟨?_, (hws x hx).2⟩
    intro hnil
    exact (hws x hx).1 (by cases x; exact congrArg String.mk hnil)

lemma joinSp_ne_empty (w : String) (ws : List String) (hw : w ≠ "") : joinSp (w :: ws) ≠ "" := by
  unfold joinSp
  cases ws with
  | nil =>
    apply mk_ne_empty_of_ne_nil
    rw [show (w :: []).map String.data = [w.data] from rfl, show joinL [w.data] = w.data from rfl]
    intro hnil
    exact hw (by cases w; exact congrArg String.mk hnil)
  | cons w' ws' =>
    apply mk_ne_empty_of_ne_nil
    rw [show ((w :: w' :: ws').map String.data) = w.data :: (w' :: ws').map String.data from rfl]
    rw [show joinL (w.data :: (w' :: ws').map String.data) =
        w.data ++ ' ' :: joinL ((w' :: ws').map String.data) from rfl]
    simp

/-- The quote the code actually produces when no sentence scores: the
first `MAX_WORDS` words of the FIRST SENTENCE (slice_logic.py lines
102-104). -/
def firstSentenceTrunc (text : String) : String :=
  bqTrunc MAX_WORDS ((bqSentences text).headD "")

lemma best_quote_no_overlap (ratio : String → String → ℚ) (query text : String) (mw : ℕ)
    (hT : text ≠ "") (hs2 : 2 ≤ (bqSentences text).length)
    (hno : ∀ s ∈ bqSentences text, bqCommon query s = []) :
    best_quote ratio query text mw = bqTrunc mw ((bqSentences text).headD "") := by
  have hsc : bqScored ratio query (bqSentences text) = [] := by
    unfold bqScored
    exact List.filterMap_eq_nil_iff.mpr (fun s hs => by simp [hno s hs])
  unfold best_quote
  rw [if_neg hT, if_neg (by omega), if_pos hsc]

lemma extract_no_overlap (ratio : String → String → ℚ) (text query : String)
    (hT : text ≠ "") (hQ : query ≠ "")
    (hs2 : 2 ≤ (bqSentences text).length)
    (hq : bqQueryTokens query ≠ [])
    (hno : ∀ s ∈ bqSentences text, bqCommon query s = [])
    (hw0 : tokenize_text ((bqSentences text).headD "") ≠ []) :
    extract_relevant_quotes ratio text query 1 =
      [⟨firstSentenceTrunc text, 0, (firstSentenceTrunc text).length,
        (tokenize_text (firstSentenceTrunc text)).length⟩] := by
  have hbq : best_quote ratio query text MAX_WORDS =
      bqTrunc MAX_WORDS ((bqSentences text).headD "") :=
    best_quote_no_overlap ratio query text MAX_WORDS hT hs2 hno
  have hs0mem : (bqSentences text).headD "" ∈ bqSentences text := by
    cases hsl : bqSentences text with
    | nil => rw [hsl] at hs2; simp at hs2
    | cons a l => simp
  have htoks : tokenize_text (bqTrunc MAX_WORDS ((bqSentences text).headD "")) =
      (tokenize_text ((bqSentences text).headD "")).take
        (min MAX_WORDS (tokenize_text ((bqSentences text).headD "")).length) := by
    unfold bqTrunc
    exact tokenize_joinSp _ (fun w hw =>
      tokenize_mem_spec ((bqSentences text).headD "") w (List.mem_of_mem_take hw))
  have hpassne : bqTrunc MAX_WORDS ((bqSentences text).headD "") ≠ "" := by
    unfold bqTrunc
    cases htk : (tokenize_text ((bqSentences text).headD "")).take
        (min MAX_WORDS (tokenize_text ((bqSentences text).headD "")).length) with
    | nil =>
      rcases List.take_eq_nil_iff.mp htk with h0 | h0
      · have hp : 0 < (tokenize_text ((bqSentences text).headD "")).length :=
          List.length_pos.mpr hw0
        rw [show MAX_WORDS = 40 from rfl] at h0
        omega
      · exact absurd h0 hw0
    | cons w ws =>
      have hwmem : w ∈ tokenize_text ((bqSentences text).headD "") :=
        List.mem_of_mem_take (htk ▸ List.mem_cons_self w ws)
      exact joinSp_ne_empty w ws (tokenize_mem_spec _ w hwmem).1
  have hcommon : ((tokenize_text (clean_str (bqTrunc MAX_WORDS
      ((bqSentences text).headD "")))).dedup).filter
        (fun t => t ∈ bqQueryTokens query) = [] := by
    apply List.filter_eq_nil_iff.mpr
    intro t htmem
    have ht1 : t ∈ tokenize_text (clean_str (bqTrunc MAX_WORDS
        ((bqSentences text).headD ""))) := List.mem_dedup.mp htmem
    rw [tokenize_clean_str, htoks] at ht1
    have ht2 := List.mem_filter.mp ht1
    obtain ⟨w, hwmem, hwt⟩ := List.mem_map.mp ht2.1
    have hw' : w ∈ tokenize_text ((bqSentences text).headD "") :=
      List.mem_of_mem_take hwmem
    have ht3 : t ∈ tokenize_text (clean_str ((bqSentences text).headD "")) := by
      rw [tokenize_clean_str]
      exact List.mem_filter.mpr ⟨List.mem_map.mpr ⟨w, hw', hwt⟩, ht2.2⟩
    have ht4 : t ∈ (tokenize_text (clean_str ((bqSentences text).headD ""))).dedup :=
      List.mem_dedup.mpr ht3
    have h5 := hno ((bqSentences text).headD "") hs0mem
    unfold bqCommon at h5
    exact List.filter_eq_nil_iff.mp h5 t ht4
  have hfp : find_passage_containing_query ratio text query MAX_WORDS =
      (bqTrunc MAX_WORDS ((bqSentences text).headD ""), 0) := by
    unfold find_passage_containing_query
    rw [hbq, if_neg hq, hcommon]
    simp
  unfold extract_relevant_quotes
  rw [if_neg (by simp [hT, hQ]), hfp]
  rw [if_pos (show ((bqTrunc MAX_WORDS ((bqSentences text).headD ""), (0 : ℚ)).1 ≠ "")
    from hpassne)]
  rfl

/-- Claim C9 counterexample: on body `"Hi. Bye bye"` and query `"zzz"`
(no shared token with any sentence) the extractor returns the first
words of the FIRST SENTENCE (`"Hi."`) with score 0 — not the first
`maxWords` tokens of the whole body (`"Hi. Bye bye"`), and not score
0.1 as claimed. -/
theorem passage_extractor_counterexample :
    extract_relevant_quotes (fun _ _ => 0) "Hi. Bye bye" "zzz" 1 =
      [⟨"Hi.", 0, 3, 1⟩] ∧
    joinSp ((tokenize_text "Hi. Bye bye").take MAX_WORDS) = "Hi. Bye bye" ∧
    ("Hi." : String) ≠ "Hi. Bye bye" ∧
    (0 : ℚ) ≠ 1/10 := by
  refine ⟨?_, by decide, by decide, by norm_num⟩
  have h := extract_no_overlap (fun _ _ => 0) "Hi. Bye bye" "zzz"
    (by decide) (by decide) (by decide) (by decide) (by decide) (by decide)
  rw [h, show firstSentenceTrunc "Hi. Bye bye" = "Hi." from by decide]
  rw [show ("Hi." : String).length = 3 from by decide,
    show (tokenize_text "Hi.").length = 1 from by decide]

/-- Claim C9 (amended): the extractor on an empty body returns the
EMPTY LIST (no quote at all); and when the body has at least two
sentences, none of which shares a token with the query (whose cleaned
token set is nonempty), it returns the first `MAX_WORDS` tokens of the
FIRST SENTENCE with score 0 — the 0.1-scored fallback of the first
`MAX_WORDS` body tokens fires only when the extracted passage is
empty. -/
theorem passage_extractor_amended_spec (ratio : String → String → ℚ) (text query : String)
    (hT : text ≠ "") (hQ : query ≠ "")
    (hs2 : 2 ≤ (bqSentences text).length)
    (hq : bqQueryTokens query ≠ [])
    (hno : ∀ s ∈ bqSentences text, bqCommon query s = [])
    (hw0 : tokenize_text ((bqSentences text).headD "") ≠ []) :
    extract_relevant_quotes ratio "" query 1 = [] ∧
    extract_relevant_quotes ratio text query 1 =
      [⟨firstSentenceTrunc text, 0, (firstSentenceTrunc text).length,
        (tokenize_text (firstSentenceTrunc text)).length⟩] :=
  ⟨rfl, extract_no_overlap ratio text query hT hQ hs2 hq hno hw0⟩

/-- Witness for `passage_extractor_amended_spec` at concrete inputs with
no query-body token overlap. -/
theorem passage_extractor_amended_spec_witness :
    (("Hi. Bye bye" : String) ≠ "" ∧ ("zzz qq" : String) ≠ "" ∧
      2 ≤ (bqSentences "Hi. Bye bye").length ∧
      bqQueryTokens "zzz qq" ≠ [] ∧
      (∀ s ∈ bqSentences "Hi. Bye bye", bqCommon "zzz qq" s = []) ∧
      tokenize_text ((bqSentences "Hi. Bye bye").headD "") ≠ []) ∧
    extract_relevant_quotes (fun _ _ => 0) "Hi. Bye bye" "zzz qq" 1 =
      [⟨firstSentenceTrunc "Hi. Bye bye", 0, (firstSentenceTrunc "Hi. Bye bye").length,
        (tokenize_text (firstSentenceTrunc "Hi. Bye bye")).length⟩] :=
  ⟨⟨by decide, by decide, by decide, by decide, by decide, by decide⟩,
    (passage_extractor_amended_spec (fun _ _ => 0) "Hi. Bye bye" "zzz qq"
      (by decide) (by decide) (by decide) (by decide) (by decide) (by decide)).2⟩
